import Mathlib

/-!
# File_Organizer: verification of the ingestion/placement pipeline

A shallow embedding of the `file_organizer` Python package.  Text is
modelled as `List Char` (ASCII model of Python `str`: the character
classes `\s`, `\d`, `\w` are interpreted over ASCII, which covers every
input considered here).  Python dicts used as per-file result records are
modelled by a structure with `Option` fields (a `none` field is an absent
key).  Filesystem state is passed explicitly: the set of existing paths is
a `List String`, and external effects (LLM calls, stat, move, zip) are
parameters to the stage functions.

Each definition is a direct translation of the named Python function.
-/

namespace FileOrganizer

/-! ## Character classes (ASCII model of Python's `\s`, `\d`, `\w`) -/

/-- Python `\s` over ASCII: space, tab, newline, carriage return,
vertical tab, form feed. -/
def isPySpace (c : Char) : Bool :=
  c = ' ' || c = '\t' || c = '\n' || c = '\r' || c = '\x0b' || c = '\x0c'

/-- Python `\d` over ASCII. -/
def isPyDigit (c : Char) : Bool :=
  '0' ≤ c && c ≤ '9'

def isAsciiUpper (c : Char) : Bool :=
  'A' ≤ c && c ≤ 'Z'

def isAsciiLower (c : Char) : Bool :=
  'a' ≤ c && c ≤ 'z'

/-- Python `\w` over ASCII: letters, digits, underscore. -/
def isPyWord (c : Char) : Bool :=
  isAsciiUpper c || isAsciiLower c || isPyDigit c || c = '_'

/-- `str.lower` on a single ASCII character. -/
def lowerChar (c : Char) : Char :=
  if isAsciiUpper c then Char.ofNat (c.toNat + 32) else c

/-- `str.lower` (ASCII model). -/
def lowerStr (s : List Char) : List Char :=
  s.map lowerChar

/-! ## Generic list/string helpers shared by several components -/

/-- `str.split(sep)` for a one-character separator: splits on every
occurrence, keeping empty pieces (Python semantics). -/
def splitOnChar (sep : Char) : List Char → List (List Char)
  | [] => [[]]
  | c :: cs =>
    match splitOnChar sep cs with
    | [] => [[c]]
    | r :: rs => if c = sep then [] :: r :: rs else (c :: r) :: rs

/-- `sep.join(pieces)` for a one-character separator. -/
def joinWithChar (sep : Char) : List (List Char) → List Char
  | [] => []
  | [p] => p
  | p :: ps => p ++ sep :: joinWithChar sep ps

/-- Length of the maximal run of characters satisfying `p` at the head. -/
def runLen (p : Char → Bool) : List Char → Nat
  | [] => 0
  | c :: cs => if p c then runLen p cs + 1 else 0

/-- `str.strip('_')`-style strip: drop leading and trailing characters
satisfying `p`. -/
def stripWhere (p : Char → Bool) (s : List Char) : List Char :=
  ((s.dropWhile p).reverse.dropWhile p).reverse

theorem runLen_le_length (p : Char → Bool) (xs : List Char) :
    runLen p xs ≤ xs.length := by
  induction xs with
  | nil => simp [runLen]
  | cons x xs ih =>
    simp only [runLen]
    split
    · exact Nat.succ_le_succ ih
    · simp

theorem length_dropWhile_le (p : Char → Bool) (xs : List Char) :
    (xs.dropWhile p).length ≤ xs.length := by
  induction xs with
  | nil => simp [List.dropWhile]
  | cons x xs ih =>
    simp only [List.dropWhile]
    split
    · exact Nat.le_succ_of_le ih
    · simp

/-- `re.sub(t+, t, s)`: collapse each maximal run of the character `t`
to a single occurrence (drop every `t` that is immediately followed by
another `t`, keeping the last of each run). -/
def collapseChar (t : Char) : List Char → List Char
  | [] => []
  | [x] => [x]
  | x :: y :: xs =>
    if x = t && y = t then collapseChar t (y :: xs)
    else x :: collapseChar t (y :: xs)

/-! ## GroupingAgent (`agents/grouping_agent.py`)

`_clean_path_component` / `_clean_path` sanitize the LLM's raw folder
suggestion, and `suggest_group_path` is the pipeline stage. -/

/-- `GroupingAgent._clean_path_component`: lowercase, spaces to
underscores, drop characters outside `[a-z0-9_]`, collapse underscore
runs, strip leading/trailing underscores. -/
def cleanPathComponent (component : List Char) : List Char :=
  if component = [] then []
  else
    let clean := (lowerStr component).map (fun c => if c = ' ' then '_' else c)
    let clean := clean.filter (fun c => isAsciiLower c || isPyDigit c || c = '_')
    stripWhere (· = '_') (collapseChar '_' clean)

/-- The component list of `GroupingAgent._clean_path`: split on `/`,
sanitize each component, drop empties, truncate to `maxDepth`, and
prepend the sanitized category when the first surviving component does
not case-insensitively equal the category. -/
def cleanPathComps (maxDepth : Nat) (path : List Char) (category : List Char) :
    List (List Char) :=
  let comps := ((splitOnChar '/' path).map cleanPathComponent).filter (· ≠ [])
  match comps.take maxDepth with
  | [] => []
  | b :: bs =>
    if lowerStr b ≠ lowerStr category then
      cleanPathComponent category :: b :: bs
    else b :: bs

/-- `GroupingAgent._clean_path`. -/
def cleanPath (maxDepth : Nat) (path : List Char) (category : List Char) :
    List Char :=
  if path = [] then cleanPathComponent category
  else
    let clean := joinWithChar '/' (cleanPathComps maxDepth path category)
    if clean = [] then cleanPathComponent category else clean

/-! ## TextCleaner (`tools/cleaning/text_cleaner.py`)

Each `re.sub` pass is a left-to-right scanner: at every position it
attempts the pattern; on a match of length `n ≥ 1` it emits the
replacement and resumes after the match, otherwise it emits the current
character and advances one position.  The `re.MULTILINE` anchor `^` is
tracked by a flag (`true` at the string start and right after a `'\n'`),
`$` matches at the end of the string and before a `'\n'`.  None of the
five patterns can match the empty string. -/

/-- Python `str.strip()`. -/
def pyStrip (s : List Char) : List Char :=
  stripWhere isPySpace s

/-- Generic single-pattern `re.sub`: `tryM` returns the length of the
match at the current position (`none` if no match).  The `Bool` argument
is the `^`-anchor flag.  The fuel argument makes the recursion
structural; every step consumes at least one character, so fuel equal to
the text length (as supplied by `runSub`) is always sufficient. -/
def scanSub (tryM : Bool → List Char → Option Nat) (repl : List Char) :
    Nat → Bool → List Char → List Char
  | _, _, [] => []
  | 0, _, _ => []
  | fuel + 1, atLS, c :: cs =>
    match tryM atLS (c :: cs) with
    | some n =>
      if 1 ≤ n then
        repl ++ scanSub tryM repl fuel ((c :: cs).getD (n - 1) ' ' = '\n')
          ((c :: cs).drop n)
      else c :: scanSub tryM repl fuel (c = '\n') cs
    | none => c :: scanSub tryM repl fuel (c = '\n') cs

/-- One full `re.sub` pass over `s`. -/
def runSub (tryM : Bool → List Char → Option Nat) (repl : List Char)
    (s : List Char) : List Char :=
  scanSub tryM repl s.length true s

/-- Matcher for `Page\s+\d+(?:\s+of\s+\d+)?` (case-insensitive). -/
def tryPageNum (s : List Char) : Option Nat :=
  match s with
  | p :: a :: g :: e :: rest =>
    if lowerChar p = 'p' && lowerChar a = 'a' && lowerChar g = 'g' &&
        lowerChar e = 'e' then
      let w1 := runLen isPySpace rest
      if w1 = 0 then none
      else
        let s1 := rest.drop w1
        let d1 := runLen isPyDigit s1
        if d1 = 0 then none
        else
          let base := 4 + w1 + d1
          let s2 := s1.drop d1
          -- optional `\s+of\s+\d+` (included when it matches in full)
          let w2 := runLen isPySpace s2
          let s3 := s2.drop w2
          match s3 with
          | o :: f :: s4 =>
            if w2 ≥ 1 && lowerChar o = 'o' && lowerChar f = 'f' then
              let w3 := runLen isPySpace s4
              let s5 := s4.drop w3
              let d2 := runLen isPyDigit s5
              if w3 ≥ 1 && d2 ≥ 1 then some (base + w2 + 2 + w3 + d2)
              else some base
            else some base
          | _ => some base
    else none
  | _ => none

/-- After the mandatory part of a `...\s*$` pattern, the length of the
trailing `\s*` chosen by the (greedy, backtracking) engine: the largest
`j` not exceeding the whitespace run of `cs` such that position `j` is
the end of the string or holds a `'\n'`.  `none` when `$` cannot be
reached. -/
def trailingStop (cs : List Char) : Option Nat :=
  let r := runLen isPySpace cs
  if r = cs.length then some r
  else ((List.range r).filter (fun j => cs.getD j ' ' = '\n')).getLast?

/-- Matcher for `^\s*\d+\s*$` (`re.MULTILINE`). -/
def tryLoneNum (atLS : Bool) (s : List Char) : Option Nat :=
  if !atLS then none
  else
    let w := runLen isPySpace s
    let s1 := s.drop w
    let d := runLen isPyDigit s1
    if d = 0 then none
    else
      match trailingStop (s1.drop d) with
      | some j => some (w + d + j)
      | none => none

/-- The class `[A-Z0-9\s]` of the header pattern. -/
def isCapsClass (c : Char) : Bool :=
  isAsciiUpper c || isPyDigit c || isPySpace c

/-- Matcher for `^\s*[A-Z0-9\s]+\s*$` (`re.MULTILINE`).  Since `\s` is
contained in the class, any match lies inside the maximal class run `m`;
the engine settles on the largest end position `e ≤ m` (with `e ≥ 1`)
where `$` holds. -/
def tryCapsLine (atLS : Bool) (s : List Char) : Option Nat :=
  if !atLS then none
  else
    let m := runLen isCapsClass s
    if m = 0 then none
    else if m = s.length then some m
    else
      match ((List.range m).filter (fun j => s.getD j ' ' = '\n')).getLast? with
      | some e => if e ≥ 1 then some e else none
      | none => none

/-- Matcher for `^\s*\S{1,3}\s*$` (`re.MULTILINE`): a single token of at
most three non-whitespace characters surrounded by whitespace up to the
line end. -/
def tryShortLine (atLS : Bool) (s : List Char) : Option Nat :=
  if !atLS then none
  else
    let w := runLen isPySpace s
    let s1 := s.drop w
    let n := runLen (fun c => !isPySpace c) s1
    if n = 0 || n > 3 then none
    else
      match trailingStop (s1.drop n) with
      | some j => some (w + n + j)
      | none => none

/-- `TextCleaner._remove_page_numbers`. -/
def removePageNumbers (s : List Char) : List Char :=
  runSub tryLoneNum [] (runSub (fun _ l => tryPageNum l) [] s)

/-- `TextCleaner._remove_headers_footers`. -/
def removeHeadersFooters (s : List Char) : List Char :=
  runSub tryShortLine [] (runSub tryCapsLine [] s)

/-- `TextCleaner._normalize_whitespace`: `re.sub(r'\s+', ' ', s)` —
every maximal whitespace run becomes one space (a whitespace character
followed by more whitespace is dropped; the last of the run becomes
`' '`). -/
def normalizeWhitespace : List Char → List Char
  | [] => []
  | [x] => [if isPySpace x then ' ' else x]
  | x :: y :: xs =>
    if isPySpace x && isPySpace y then normalizeWhitespace (y :: xs)
    else (if isPySpace x then ' ' else x) :: normalizeWhitespace (y :: xs)

/-- `TextCleaner._remove_repeated_newlines`: `re.sub(r'\n{3,}', '\n\n', s)`
— every newline that opens a run of three or more is dropped, so each
such run keeps exactly its last two newlines. -/
def removeRepeatedNewlines : List Char → List Char
  | [] => []
  | [c] => [c]
  | [c, d] => [c, d]
  | c :: d :: e :: rest =>
    if c = '\n' && d = '\n' && e = '\n' then
      removeRepeatedNewlines (d :: e :: rest)
    else c :: removeRepeatedNewlines (d :: e :: rest)

/-- The full `TextCleaner.clean` text transformation, in source order:
page numbers, headers/footers, whitespace collapse, repeated-newline
collapse, trim. -/
def cleanText (s : List Char) : List Char :=
  pyStrip (removeRepeatedNewlines (normalizeWhitespace
    (removeHeadersFooters (removePageNumbers s))))

/-! ## `pathlib` fragments

The pipeline uses `Path(...).name`, `.suffix` and `.stem`.  The model
covers plain relative/absolute paths (no `.`/`..` special components),
which is all the pipeline ever builds. -/

/-- `Path(s).name`: the final path component (empty components from
repeated or trailing slashes are dropped, as in `pathlib`). -/
def pathName (s : List Char) : List Char :=
  (((splitOnChar '/' s).filter (· ≠ [])).getLastD [])

/-- Index of the last `'.'` in a component, if any. -/
def lastDotIdx (nm : List Char) : Option Nat :=
  ((List.range nm.length).filter (fun j => nm.getD j ' ' = '.')).getLast?

/-- `Path(s).suffix`: `name[i:]` for `i = name.rfind('.')` when
`0 < i < len(name) - 1`, else the empty string. -/
def pathSuffix (s : List Char) : List Char :=
  let nm := pathName s
  match lastDotIdx nm with
  | some i => if 0 < i ∧ i < nm.length - 1 then nm.drop i else []
  | none => []

/-- `Path(s).stem`: `name[:i]` under the same condition, else the whole
name. -/
def pathStem (s : List Char) : List Char :=
  let nm := pathName s
  match lastDotIdx nm with
  | some i => if 0 < i ∧ i < nm.length - 1 then nm.take i else nm
  | none => nm

/-! ## PreprocessingAgent (`agents/preprocessing_yaaaar.py`) -/

/-- `PreprocessingAgent.extraction_plans`: the fixed extension table. -/
def extractionPlans : List (String × String) :=
  [(".pdf", "pdf_text_then_ocr_if_needed"),
   (".png", "ocr"), (".jpg", "ocr"), (".jpeg", "ocr"),
   (".docx", "docx"), (".doc", "docx"),
   (".ppt", "ppt"), (".pptx", "ppt")]

/-- `PreprocessingAgent.get_extraction_plan`, reduced to the
`extraction_plan` value it stores: `extraction_plans.get(suffix.lower())`
(`none` models Python `None`).  The returned dict never carries a
`success` key, so merging it into the record leaves `success` untouched. -/
def getExtractionPlan (filePath : String) : Option String :=
  extractionPlans.lookup (String.mk (lowerStr (pathSuffix filePath.data)))

/-- The supported input extensions (§6 of the behaviour: the keys of the
extraction-plan table). -/
def supportedExts : List String :=
  extractionPlans.map (·.1)

/-! ## ExtractorFactory (`tools/extraction/__init__.py`) -/

/-- The four concrete extractors. -/
inductive Extractor where
  | pdf | image | docx | ppt
deriving DecidableEq, Repr

/-- `ExtractorFactory.get_extractor`: `extractors.get(extraction_plan)`.
A `none` plan (Python `None`) is simply not a key of the dict, so the
lookup returns `none`. -/
def getExtractor (plan : Option String) : Option Extractor :=
  match plan with
  | none => none
  | some p =>
    [("pdf_text_then_ocr_if_needed", Extractor.pdf), ("ocr", Extractor.image),
     ("docx", Extractor.docx), ("ppt", Extractor.ppt)].lookup p

/-! ## FileTypeDetector (`tools/detection/file_type_detector.py`)

`detect` stats the filesystem (`path.exists()`) and consults
`mimetypes.guess_type`; both are parameters here.  The returned dict
never carries a `success` key. -/

/-- `FileTypeDetector.detect`, reduced to the `(file_type, mime_type)`
pair it stores. -/
def detectTypes (fileExists : Bool) (mime : Option String) (filePath : String) :
    Option String × Option String :=
  if !fileExists then (none, none)
  else
    let suf := pathSuffix filePath.data
    (if suf ≠ [] then some (String.mk ((lowerStr suf).drop 1)) else none, mime)

/-! ## The per-file result record

The shared dict threaded through the stages.  Each field models one key;
`none` is an absent key (for `extraction_plan`, whose key is always
present after preprocessing, `none` models the stored Python `None`).
No stage of the pipeline ever writes the `classification` key; it is kept
in the model because `GroupingAgent.suggest_group_path` reads it. -/

/-- Value shape of a `classification` sub-dict. -/
structure Classification where
  category : String
  confidence : Rat
deriving DecidableEq, Repr

/-- Value shape of the `metadata` sub-dict built by `MetadataGenerator`. -/
structure Metadata where
  page_count : Nat
  has_tables : Bool
  word_count : Nat
  line_count : Nat
  ocr_confidence : Option Rat
  file_size : Option Nat
deriving DecidableEq, Repr

structure Record where
  file_path : Option String := none
  success : Bool := false
  error : Option String := none
  extraction_plan : Option String := none
  file_type : Option String := none
  mime_type : Option String := none
  content : Option String := none
  ocr_confidence : Option Rat := none
  metadata : Option Metadata := none
  category : Option String := none
  confidence : Option Rat := none
  classification : Option Classification := none
  group_path : Option String := none
  new_name : Option String := none
  final_path : Option String := none
  source : Option String := none
  destination : Option String := none
  moved_to : Option String := none
  original_location : Option String := none
  organized_dir : Option String := none
  zip_path : Option String := none
deriving DecidableEq, Repr

/-! ## TextCleaner stage (`TextCleaner.clean`) -/

/-- `TextCleaner.clean`: short-circuits on failure, passes empty content
through, otherwise overwrites `content` with the cleaned text.  A record
without a `content` key makes `text_data['content']` raise `KeyError`,
which the handler converts to a failure (message abridged). -/
def cleanStage (r : Record) : Record :=
  if !r.success then r
  else match r.content with
    | none => { r with error := some "Text cleaning failed: KeyError", success := false }
    | some text =>
      if text = "" then r
      else { r with content := some (String.mk (cleanText text.data)) }

/-! ## MetadataGenerator stage (`tools/metadata/metadata_generator.py`) -/

/-- `MetadataGenerator._count_pages`: form feeds if any, else
`newline count // 50 + 1`, floored at 1. -/
def countPages (text : List Char) : Nat :=
  let pageBreaks := text.count '\x0c'
  max 1 (if pageBreaks > 0 then pageBreaks else text.count '\n' / 50 + 1)

/-- Number of maximal runs of characters satisfying `p`. -/
def countTokens (p : Char → Bool) : List Char → Nat
  | [] => 0
  | c :: cs =>
    if p c then countTokens p (cs.dropWhile p) + 1 else countTokens p cs
termination_by l => l.length
decreasing_by
  · exact Nat.lt_succ_of_le (length_dropWhile_le _ _)
  · exact Nat.lt_succ_self _

/-- `MetadataGenerator._count_words`: `len(re.findall(r'\w+', text))`. -/
def countWords (text : List Char) : Nat :=
  countTokens isPyWord text

/-- Line-break characters of `str.splitlines` (ASCII model). -/
def isLineBreak (c : Char) : Bool :=
  c = '\n' || c = '\r' || c = '\x0b' || c = '\x0c' ||
  c = '\x1c' || c = '\x1d' || c = '\x1e'

/-- `str.splitlines` (ASCII model): `'\r\n'` counts as one break; a
trailing break does not open a final empty line. -/
def splitLines : List Char → List (List Char) :=
  let rec go (cur : List Char) : List Char → List (List Char)
    | [] => if cur = [] then [] else [cur]
    | '\r' :: '\n' :: rest => cur :: go [] rest
    | c :: rest =>
      if isLineBreak c then cur :: go [] rest else go (cur ++ [c]) rest
  go []

/-- `MetadataGenerator._count_lines`: non-blank lines. -/
def countLines (text : List Char) : Nat :=
  ((splitLines text).filter (fun l => pyStrip l ≠ [])).length

/-- Search for `\+[-]+\+` anywhere in the text. -/
def hasPlusDashPlus : List Char → Bool
  | [] => false
  | c :: cs =>
    (c = '+' && (runLen (· = '-') cs ≥ 1 && cs.getD (runLen (· = '-') cs) ' ' = '+'))
      || hasPlusDashPlus cs

/-- One line matches `\|.+\|` iff its first and last `'|'` are at least
two positions apart (`.` matches everything but `'\n'`, including `'|'`). -/
def pipeRowLine (l : List Char) : Bool :=
  let idxs := (List.range l.length).filter (fun j => l.getD j ' ' = '|')
  match idxs.head?, idxs.getLast? with
  | some i, some k => decide (i + 2 ≤ k)
  | _, _ => false

/-- Search for `\|.+\|`. -/
def hasPipeRow (text : List Char) : Bool :=
  (splitOnChar '\n' text).any pipeRowLine

/-- Continuation of the `^\s*\w+(\s{2,}\w+)+\s*$` parse after a `\w+`
run, `k` groups so far.  Since `\s` and `\w` are disjoint the parse is
deterministic; `\s{2,}` may cross newlines, and the match may end (with
`k ≥ 1` groups) at the text end or before any `'\n'` inside the
whitespace run. -/
def spaceTableGroups : List Char → Nat → Bool
  | s, k =>
    let r := runLen isPySpace s
    if k ≥ 1 &&
        (r = s.length || (List.range r).any (fun j => s.getD j ' ' = '\n')) then
      true
    else if h : r ≥ 2 ∧ runLen isPyWord (s.drop r) ≥ 1 then
      spaceTableGroups ((s.drop r).drop (runLen isPyWord (s.drop r))) (k + 1)
    else false
termination_by s _ => s.length
decreasing_by
  have hr : runLen isPySpace s ≤ s.length := runLen_le_length _ _
  simp only [List.length_drop]
  omega

/-- Attempt `\s*\w+(\s{2,}\w+)+\s*$` at a line-start position. -/
def spaceTableFrom (s : List Char) : Bool :=
  let w := runLen isPySpace s
  let s1 := s.drop w
  let n := runLen isPyWord s1
  if n = 0 then false else spaceTableGroups (s1.drop n) 0

/-- Search for `^\s*\w+(\s{2,}\w+)+\s*$` (`re.MULTILINE`). -/
def hasSpaceTable (text : List Char) : Bool :=
  let rec go : Bool → List Char → Bool
    | _, [] => false
    | atLS, c :: cs => (atLS && spaceTableFrom (c :: cs)) || go (c = '\n') cs
  go true text

/-- `MetadataGenerator._detect_tables`. -/
def detectTables (text : List Char) : Bool :=
  hasPlusDashPlus text || hasPipeRow text || hasSpaceTable text

/-- `MetadataGenerator.generate`: `statSize` models
`_get_file_size` for the record's path (`none` when the stat fails). -/
def generateMeta (statSize : Option Nat) (r : Record) : Record :=
  if !r.success then r
  else
    let text := (r.content.getD "").data
    { r with metadata := some (Metadata.mk (countPages text)
        (detectTables text) (countWords text) (countLines text)
        r.ocr_confidence (if r.file_path = none then none else statSize)) }

/-! ## ClassificationAgent stage (`agents/classification_agent.py`) -/

/-- `ClassificationAgent.categories` (constructor default). -/
def categories : List String :=
  ["Academics", "Business", "Finance", "Legal", "Medical",
   "Technical", "Creative", "Personal", "Other"]

/-- Outcome of the external classification call, as seen by
`ClassificationAgent.classify` after `chain.invoke`:
* `raises` — the call (or the later `float(...)` coercion) raised;
* `badStr` — a string came back and `json.loads` failed on it;
* `nonDict` — the parsed value is not a dict;
* `dictResult c f` — a dict with optional `category` / numeric
  `confidence` entries (a string result that parses to a dict lands here
  too). -/
inductive ClassifyOutcome where
  | raises
  | badStr
  | nonDict
  | dictResult (category : Option String) (confidence : Option Rat)
deriving DecidableEq, Repr

/-- `ClassificationAgent.classify`.  Note where the results are stored:
the top-level `category` and `confidence` keys, never a `classification`
sub-dict.  No branch ever validates the returned category against
`categories`, and no branch touches `success`. -/
def classifyStage (llm : ClassifyOutcome) (r : Record) : Record :=
  if !r.success then r
  else match llm with
    | .raises =>
      { r with category := some "Other", confidence := some (1/2 : Rat) }
    | .badStr | .nonDict =>
      -- result is replaced by {"category": "Other", "confidence": 0.5},
      -- then stored through the same `.get` calls
      { r with category := some "Other", confidence := some (1/2 : Rat) }
    | .dictResult c f =>
      { r with category := some (c.getD "Other"),
               confidence := some (f.getD (1/2 : Rat)) }

/-! ## GroupingAgent stage (`GroupingAgent.suggest_group_path`) -/

/-- `GroupingAgent.suggest_group_path` with default `max_depth`
explicit.  The LLM call result is a parameter: `Except.ok raw` is the
string the chain returned, `Except.error ()` any exception in the `try`
block.  The category is read from the `classification` sub-dict with
default `'other'` (no stage ever writes that key). -/
def groupStage (maxDepth : Nat) (llm : Except Unit String) (r : Record) :
    Record :=
  if !r.success then r
  else match llm with
    | .ok rawPath =>
      let category := lowerStr ((r.classification.map (·.category)).getD "other").data
      let raw := pyStrip rawPath.data
      { r with group_path := some (String.mk (cleanPath maxDepth raw category)) }
    | .error _ =>
      let fb := cleanPathComponent
        ((r.classification.map (·.category)).getD "other").data
      { r with group_path := some (String.mk fb) }

/-! ## RenamingAgent (`agents/renaming_agent.py`) -/

/-- Python `s[:m]` for an `int` bound (negative bounds trim from the
end). -/
def pySliceTo (m : Int) (l : List Char) : List Char :=
  if 0 ≤ m then l.take m.toNat else l.take (l.length - (-m).toNat)

/-- `str.rstrip(t)`-style strip of trailing characters satisfying `p`. -/
def rstripWhere (p : Char → Bool) (l : List Char) : List Char :=
  (l.reverse.dropWhile p).reverse

/-- The class `[_.-]` of `leading_trailing_chars`. -/
def isTrimChar (c : Char) : Bool :=
  c = '_' || c = '.' || c = '-'

/-- `RenamingAgent._clean_filename`. -/
def cleanFilename (maxFilenameLength : Nat) (filename : String)
    (extension : String) : String :=
  if filename = "" then String.mk ("unnamed_document".data ++ extension.data)
  else
    let name := pathStem filename.data
    let name := lowerStr name
    -- invalid_chars: each character outside [a-z0-9_.-] becomes '_'
    let name := name.map (fun c =>
      if isAsciiLower c || isPyDigit c || isTrimChar c then c else '_')
    let name := collapseChar '_' name
    let name := stripWhere isTrimChar name
    let name := if name = [] then "unnamed_document".data else name
    let maxNameLength : Int := (maxFilenameLength : Int) - extension.length
    let name :=
      if (name.length : Int) > maxNameLength then
        rstripWhere (· = '_') (pySliceTo maxNameLength name)
      else name
    let name :=
      if !(lowerStr extension.data).isSuffixOf (lowerStr name) then
        name ++ extension.data
      else name
    String.mk name

/-- `RenamingAgent.generate_filename`.  `Except.ok s` is the
`chain.invoke(...)` string (before `.strip()`), `Except.error ()` any
exception in the `try` block (the fallback then sanitizes the original
name and skips the final truncation). -/
def renameStage (maxFilenameLength : Nat) (llm : Except Unit String)
    (r : Record) : Record :=
  if !r.success then r
  else
    let filePath := r.file_path.getD "document"
    let extension := String.mk (lowerStr (pathSuffix filePath.data))
    match llm with
    | .ok suggested =>
      let cleanName :=
        cleanFilename maxFilenameLength (String.mk (pyStrip suggested.data))
          extension
      let cleanName :=
        if cleanName.length > maxFilenameLength then
          String.mk (cleanName.data.take maxFilenameLength)
        else cleanName
      { r with new_name := some cleanName }
    | .error _ =>
      { r with new_name := some (cleanFilename maxFilenameLength
          (String.mk (pathName filePath.data)) extension) }

/-! ## PathBuilder (`tools/filesystem/path_builder.py`)

Paths are `PyPath` values (directory components plus final name); the
filesystem contents are a `List String` of existing path strings, so
`path.exists()` is a membership test. -/

structure PyPath where
  parent : List String
  name : String
deriving DecidableEq, Repr

/-- `str(path)` on POSIX: components joined by `'/'`. -/
def pathToStr (p : PyPath) : String :=
  String.mk (joinWithChar '/' (p.parent.map String.data ++ [p.name.data]))

/-- Characters removed by `PathBuilder._clean_path_component`:
`[<>:"/\\|?*\x00-\x1f]`. -/
def isPbInvalid (c : Char) : Bool :=
  c = '<' || c = '>' || c = ':' || c = '"' || c = '/' || c = '\\' ||
  c = '|' || c = '?' || c = '*' || decide (c.toNat ≤ 0x1f)

/-- `PathBuilder._clean_path_component`. -/
def pbCleanComponent (component : String) : String :=
  if component = "" then "_"
  else
    let cleaned := component.data.filter (fun c => !isPbInvalid c)
    let cleaned := stripWhere (fun c => c = ' ' || c = '.') cleaned
    if cleaned = [] then "_" else String.mk cleaned

/-- `str(n)` for a natural number: decimal digits (fuel-structural; any
fuel above the digit count suffices, and `natRepr` passes `n + 1`). -/
def natReprAux : Nat → Nat → List Char
  | 0, _ => []
  | fuel + 1, n =>
    if n < 10 then [Char.ofNat (48 + n)]
    else natReprAux fuel (n / 10) ++ [Char.ofNat (48 + n % 10)]

def natRepr (n : Nat) : List Char :=
  natReprAux (n + 1) n

/-- The candidate `path.parent / f"{path.stem} ({counter}){path.suffix}"`
of the collision loop. -/
def collisionCand (p : PyPath) (counter : Nat) : PyPath :=
  { parent := p.parent,
    name := String.mk (pathStem p.name.data ++
      (' ' :: '(' :: natRepr counter) ++ (')' :: pathSuffix p.name.data)) }

theorem natReprAux_pow_length : ∀ (fuel j : Nat), j < fuel →
    (natReprAux fuel (10 ^ j)).length = j + 1
  | fuel + 1, 0, _ => by simp [natReprAux]
  | fuel + 1, j + 1, h => by
    have h10 : ¬ 10 ^ (j + 1) < 10 := by
      have : 10 ^ 1 ≤ 10 ^ (j + 1) := Nat.pow_le_pow_right (by omega) (by omega)
      simpa using this
    have hdiv : 10 ^ (j + 1) / 10 = 10 ^ j := by
      rw [pow_succ]
      exact Nat.mul_div_cancel _ (by omega)
    simp only [natReprAux, if_neg h10, hdiv, List.length_append,
      List.length_cons, List.length_nil]
    rw [natReprAux_pow_length fuel j (by omega)]

theorem natRepr_pow_length (j : Nat) : (natRepr (10 ^ j)).length = j + 1 := by
  unfold natRepr
  exact natReprAux_pow_length _ j
    (Nat.lt_succ_of_lt (Nat.lt_pow_self (by omega) j))

/-- An upper bound on the lengths of the strings in `fs`. -/
def maxStrLen (fs : List String) : Nat :=
  fs.foldr (fun s m => max s.length m) 0

theorem le_maxStrLen : ∀ (fs : List String) (s : String), s ∈ fs →
    s.length ≤ maxStrLen fs
  | [], _, h => by cases h
  | t :: ts, s, h => by
    rcases List.mem_cons.mp h with rfl | h2
    · simp [maxStrLen]
    · exact le_trans (le_maxStrLen ts s h2) (by simp [maxStrLen])

theorem length_joinWithChar_last (sep : Char) (ps : List (List Char))
    (x : List Char) : x.length ≤ (joinWithChar sep (ps ++ [x])).length := by
  induction ps with
  | nil => simp [joinWithChar]
  | cons p ps ih =>
    cases ps with
    | nil => simp [joinWithChar]; omega
    | cons q qs =>
      calc x.length ≤ (joinWithChar sep ((q :: qs) ++ [x])).length := ih
        _ ≤ _ := by simp [joinWithChar]; omega

/-- The collision loop terminates: some counter yields a fresh path
(candidates grow without bound in length, the filesystem is finite). -/
theorem collisionCand_free (fs : List String) (p : PyPath) :
    ∃ n, pathToStr (collisionCand p (n + 1)) ∉ fs := by
  let B := maxStrLen fs
  refine ⟨10 ^ B - 1, fun hmem => ?_⟩
  have hk : 10 ^ B - 1 + 1 = 10 ^ B :=
    Nat.sub_add_cancel (Nat.one_le_pow _ _ (by omega))
  have hlen : (pathToStr (collisionCand p (10 ^ B - 1 + 1))).length ≥ B + 1 := by
    rw [hk]
    unfold pathToStr collisionCand
    have h1 : (natRepr (10 ^ B)).length = B + 1 := natRepr_pow_length B
    have h2 := length_joinWithChar_last '/' (p.parent.map String.data)
      (pathStem p.name.data ++ (' ' :: '(' :: natRepr (10 ^ B)) ++
        (')' :: pathSuffix p.name.data))
    simp only [String.length, String.mk] at h2 ⊢
    simp only [List.length_append, List.length_cons] at h2 ⊢
    omega
  have hle : (pathToStr (collisionCand p (10 ^ B - 1 + 1))).length ≤ B :=
    le_maxStrLen fs _ hmem
  omega

/-- `PathBuilder._handle_collision`: return the path unchanged when it
does not exist, otherwise the first ` (k)`-suffixed candidate (`k ≥ 1`)
that does not exist. -/
def handleCollision (fs : List String) (p : PyPath) : PyPath :=
  if pathToStr p ∉ fs then p
  else collisionCand p (Nat.find (collisionCand_free fs p) + 1)

/-- The known-extension list hard-coded in `PathBuilder.build_path`
(note: `.doc` and `.ppt` are missing from it). -/
def knownExts : List String :=
  [".pdf", ".docx", ".pptx", ".jpg", ".jpeg", ".png"]

/-- `PathBuilder.build_path` with the constructor's `base_output_dir`
explicit. -/
def buildPath (baseOutputDir : String) (fs : List String) (r : Record) :
    Record :=
  if !r.success then r
  else
    let groupPath := r.group_path.getD ""
    let newName := r.new_name.getD "unnamed_document"
    if groupPath = "" || newName = "" then
      -- `raise ValueError("Missing required path components")`
      { r with error := some "Path building failed: Missing required path components",
               success := false }
    else
      let pathParts := ((splitOnChar '/' groupPath.data).filter
        (fun part => pyStrip part ≠ [])).map
        (fun part => pbCleanComponent (String.mk part))
      let filename := pbCleanComponent newName
      let filename :=
        if !(knownExts.any (fun ext => ext.data.isSuffixOf (lowerStr filename.data))) then
          let suffix := pathSuffix ((r.file_path.getD "").data)
          if suffix ≠ [] then String.mk (filename.data ++ lowerStr suffix)
          else String.mk (filename.data ++ ".txt".data)
        else filename
      let finalPath := handleCollision fs
        { parent := baseOutputDir :: pathParts, name := filename }
      { r with final_path := some (pathToStr finalPath) }

/-! ## FileMover (`tools/filesystem/file_mover.py`) -/

/-- `FileMover.move_file`: `sourceExists` models `source.exists()`,
`opSucceeds` the `shutil` move/copy outcome. -/
def moveStage (copyInsteadOfMove sourceExists opSucceeds : Bool)
    (r : Record) : Record :=
  if !r.success then r
  else
    let source := r.source.getD ""
    let destination := r.destination.getD ""
    if !sourceExists then
      { r with success := false,
               error := some ("File movement failed: Source file not found: " ++ source) }
    else if opSucceeds then
      let r1 := { r with success := true, moved_to := some destination }
      if copyInsteadOfMove then { r1 with original_location := some source }
      else r1
    else
      { r with success := false,
               error := some ("Failed to move/copy file: " ++ source ++ " -> " ++ destination) }

/-! ## ZipBuilder (`tools/filesystem/zip_builder.py`) -/

/-- `ZipBuilder.create_zip` with the constructor's `output_dir` explicit;
`dirExists` models the `organized_dir` existence check, `zipOk` the
archive write. -/
def zipStage (outputDir : String) (dirExists zipOk : Bool) (r : Record) :
    Record :=
  if !r.success then r
  else
    let organizedDir := r.organized_dir.getD ""
    if !dirExists then
      { r with success := false,
               error := some ("ZIP creation failed: Organized directory not found: " ++ organizedDir) }
    else
      let zipPath := pathToStr
        (PyPath.mk [outputDir] (String.mk (pathName organizedDir.data ++ ".zip".data)))
      if zipOk then { r with zip_path := some zipPath }
      else { r with success := false,
                    error := some ("Failed to create ZIP archive: " ++ zipPath) }

/-! ## `FileOrganizer.process_file` (`main.py`), steps 1–3

The record starts `{file_path, success=true}`; preprocessing and type
detection merge their dicts in (neither carries a `success` key), each
followed by the short-circuit check; then the extractor registry is
consulted with whatever `extraction_plan` holds. -/

def initRecord (filePath : String) : Record :=
  { file_path := some filePath, success := true }

/-- After step 1 (`text_data.update(preprocessor.get_extraction_plan(...))`). -/
def afterPreprocess (filePath : String) : Record :=
  { initRecord filePath with extraction_plan := getExtractionPlan filePath }

/-- After step 2 (`text_data.update(type_detector.detect(...))`). -/
def afterDetect (fileExists : Bool) (mime : Option String)
    (filePath : String) : Record :=
  let r1 := afterPreprocess filePath
  if !r1.success then r1
  else
    let td := detectTypes fileExists mime filePath
    { r1 with file_type := td.1, mime_type := td.2 }

/-- Step 3: `ExtractorFactory.get_extractor(text_data['extraction_plan'])`
followed by `extractor.extract(...)`.  When the registry returns Python
`None`, the `.extract` attribute access raises `AttributeError`, which
the surrounding `try` of `process_file` converts to a failed record
(message abridged); otherwise the chosen extractor runs
(`runExtractor`). -/
def processThroughExtraction (fileExists : Bool) (mime : Option String)
    (runExtractor : Extractor → Record → Record) (filePath : String) :
    Record :=
  let r2 := afterDetect fileExists mime filePath
  if !r2.success then r2
  else match getExtractor r2.extraction_plan with
    | none =>
      { r2 with success := false,
                error := some "NoneType object has no attribute extract" }
    | some ex => runExtractor ex r2

/-! ## Claims -/

/-- C9: for every record with `success = false`, each record-transforming
stage (text cleaning, metadata generation, classification, grouping,
renaming, path building, file moving, zip building) returns the record
unchanged. -/
theorem C9_short_circuit (r : Record) (h : r.success = false)
    (statSize : Option Nat) (co : ClassifyOutcome) (maxDepth : Nat)
    (go : Except Unit String) (maxLen : Nat) (ro : Except Unit String)
    (base : String) (fs : List String) (cm se opOk de zo : Bool)
    (od : String) :
    cleanStage r = r ∧ generateMeta statSize r = r ∧
    classifyStage co r = r ∧ groupStage maxDepth go r = r ∧
    renameStage maxLen ro r = r ∧ buildPath base fs r = r ∧
    moveStage cm se opOk r = r ∧ zipStage od de zo r = r := by
  simp [cleanStage, generateMeta, classifyStage, groupStage, renameStage,
    buildPath, moveStage, zipStage, h]

/-- Witness for C9 at a concrete failed record. -/
theorem C9_short_circuit_witness :
    ({ success := false, error := some "boom" } : Record).success = false ∧
    (cleanStage { success := false, error := some "boom" } =
      { success := false, error := some "boom" } ∧
    generateMeta (some 7) { success := false, error := some "boom" } =
      { success := false, error := some "boom" } ∧
    classifyStage .raises { success := false, error := some "boom" } =
      { success := false, error := some "boom" } ∧
    groupStage 3 (.ok "a/b") { success := false, error := some "boom" } =
      { success := false, error := some "boom" } ∧
    renameStage 50 (.ok "nm") { success := false, error := some "boom" } =
      { success := false, error := some "boom" } ∧
    buildPath "organized_files" [] { success := false, error := some "boom" } =
      { success := false, error := some "boom" } ∧
    moveStage false true true { success := false, error := some "boom" } =
      { success := false, error := some "boom" } ∧
    zipStage "output" true true { success := false, error := some "boom" } =
      { success := false, error := some "boom" }) :=
  ⟨rfl, C9_short_circuit { success := false, error := some "boom" } rfl
    (some 7) .raises 3 (.ok "a/b") 50 (.ok "nm") "organized_files" []
    false true true true true "output"⟩

/-- C3 counterexample: for the unsupported extension `.xyz`, after
preprocessing and type detection the record still has `success = true`
with `extraction_plan = none`, and the registry lookup that `process_file`
then performs uses that `none` key (and finds nothing).  The claim that
the pipeline fails the record *before* invoking extraction, never looking
up the registry with a null key, is false. -/
theorem C3_null_plan_counterexample :
    (afterDetect true none "input_files/doc.xyz").success = true ∧
    (afterDetect true none "input_files/doc.xyz").extraction_plan = none ∧
    getExtractor (afterDetect true none "input_files/doc.xyz").extraction_plan
      = none := by
  decide

/-- C3 (amended): an unknown extension stores `extraction_plan = none`
and leaves `success = true` through preprocessing and detection; the
registry *is* then consulted with the `none` key and returns no
extractor, and the resulting `AttributeError` is what fails the record —
`success = false` with a non-empty error, no extractor ever running (the
outcome is independent of the extractor behaviour). -/
theorem C3_null_plan_amended (fileExists : Bool) (mime : Option String)
    (filePath : String)
    (h : getExtractionPlan filePath = none)
    (runExtractor runExtractor2 : Extractor → Record → Record) :
    (processThroughExtraction fileExists mime runExtractor filePath).success
      = false ∧
    (processThroughExtraction fileExists mime runExtractor filePath).error
      ≠ none ∧
    processThroughExtraction fileExists mime runExtractor filePath =
      processThroughExtraction fileExists mime runExtractor2 filePath := by
  simp only [processThroughExtraction, afterDetect, afterPreprocess,
    initRecord, h]
  cases fileExists <;> simp [getExtractor, detectTypes]

/-- Witness for C3 (amended) at `doc.xyz`. -/
theorem C3_null_plan_amended_witness :
    getExtractionPlan "input_files/doc.xyz" = none ∧
    ((processThroughExtraction true none (fun _ r => r)
        "input_files/doc.xyz").success = false ∧
      (processThroughExtraction true none (fun _ r => r)
        "input_files/doc.xyz").error ≠ none ∧
      processThroughExtraction true none (fun _ r => r) "input_files/doc.xyz"
        = processThroughExtraction true none
            (fun _ r => { r with content := some "text" })
            "input_files/doc.xyz") :=
  ⟨by decide, C3_null_plan_amended true none "input_files/doc.xyz" (by decide)
    (fun _ r => r) (fun _ r => { r with content := some "text" })⟩

/-- C4 counterexample: a successful external call returning the dict
`{"category": "Banana", "confidence": 0.9}` — a category outside the
fixed closed set — is stored as-is: the stage does not substitute
`{Other, 0.5}`, so the stored category is not a member of the set. -/
theorem C4_fallback_counterexample :
    (classifyStage (.dictResult (some "Banana") (some (9/10)))
        { success := true }).category = some "Banana" ∧
    (classifyStage (.dictResult (some "Banana") (some (9/10)))
        { success := true }).confidence = some (9/10 : Rat) ∧
    "Banana" ∉ categories := by
  refine ⟨rfl, rfl, by decide⟩

/-- C4 (amended): for a record with `success = true`, when the external
call raises, returns an unparseable string, or returns a non-dict, the
stage stores exactly `{category := "Other", confidence := 0.5}`; a dict
result is stored unvalidated (`category`/`confidence` with defaults
`"Other"`/`0.5` for missing keys, so out-of-set categories pass
through); in every case `success` stays `true` and the result lands in
the top-level `category`/`confidence` keys. -/
theorem C4_fallback_amended (r : Record) (h : r.success = true) :
    (∀ o, o = ClassifyOutcome.raises ∨ o = .badStr ∨ o = .nonDict →
      classifyStage o r =
        { r with category := some "Other", confidence := some (1/2 : Rat) }) ∧
    (∀ c f, classifyStage (.dictResult c f) r =
      { r with category := some (c.getD "Other"),
               confidence := some (f.getD (1/2 : Rat)) }) ∧
    (∀ o, (classifyStage o r).success = true) := by
  refine ⟨?_, ?_, ?_⟩
  · rintro o (rfl | rfl | rfl) <;> simp [classifyStage, h]
  · intro c f; simp [classifyStage, h]
  · intro o; cases o <;> simp [classifyStage, h]

/-- Witness for C4 (amended) at a concrete successful record. -/
theorem C4_fallback_amended_witness :
    ({ success := true, content := some "t" } : Record).success = true ∧
    (classifyStage .raises { success := true, content := some "t" } =
      { success := true, content := some "t", category := some "Other",
        confidence := some (1/2 : Rat) }) :=
  ⟨rfl, (C4_fallback_amended { success := true, content := some "t" }
    rfl).1 .raises (Or.inl rfl)⟩

/-- C5 counterexample: a record entering path building with
`success = true`, a group path, but *no* `new_name` key does not fail:
`build_path` substitutes the default name `unnamed_document`, keeps
`success = true`, sets no error and produces a `final_path`. -/
theorem C5_missing_inputs_counterexample :
    (buildPath "organized_files" []
      { success := true, group_path := some "docs", new_name := none,
        file_path := some "input_files/a.pdf" }).success = true ∧
    (buildPath "organized_files" []
      { success := true, group_path := some "docs", new_name := none,
        file_path := some "input_files/a.pdf" }).error = none ∧
    (buildPath "organized_files" []
      { success := true, group_path := some "docs", new_name := none,
        file_path := some "input_files/a.pdf" }).final_path =
      some "organized_files/docs/unnamed_document.pdf" := by
  decide

/-- C5 (amended): with `success = true` on entry, a missing or empty
`group_path` — or a present-but-empty `new_name` — fails the record with
the fixed non-empty error and produces no `final_path`; a *missing*
`new_name`, however, is replaced by the default `"unnamed_document"` and
path building proceeds exactly as if that name had been supplied. -/
theorem C5_missing_inputs_amended (base : String) (fs : List String)
    (r : Record) (h : r.success = true) :
    ((r.group_path = none ∨ r.group_path = some "" ∨ r.new_name = some "") →
      buildPath base fs r =
        { r with success := false,
                 error := some "Path building failed: Missing required path components" }) ∧
    (r.new_name = none →
      (buildPath base fs r).final_path =
        (buildPath base fs { r with new_name := some "unnamed_document" }).final_path ∧
      (buildPath base fs r).success =
        (buildPath base fs { r with new_name := some "unnamed_document" }).success ∧
      (buildPath base fs r).error =
        (buildPath base fs { r with new_name := some "unnamed_document" }).error) := by
  constructor
  · rintro (hg | hg | hn)
    · simp [buildPath, h, hg]
    · simp [buildPath, h, hg]
    · have : (r.new_name.getD "unnamed_document") = "" := by rw [hn]; rfl
      simp only [buildPath, h]
      rw [this]
      simp
  · intro hn
    simp only [buildPath, h, hn]
    by_cases hgp : r.group_path.getD "" = "" <;> simp [hgp]

/-- Witness for C5 (amended): the failure branch at a concrete record
with an absent group path. -/
theorem C5_missing_inputs_amended_witness :
    ({ success := true, new_name := some "x.pdf" } : Record).success = true ∧
    (({ success := true, new_name := some "x.pdf" } : Record).group_path
      = none ∨
     ({ success := true, new_name := some "x.pdf" } : Record).group_path
      = some "" ∨
     ({ success := true, new_name := some "x.pdf" } : Record).new_name
      = some "") ∧
    buildPath "organized_files" [] { success := true, new_name := some "x.pdf" }
      = { success := false, new_name := some "x.pdf",
          error := some "Path building failed: Missing required path components" } := by
  refine ⟨rfl, Or.inl rfl, ?_⟩
  exact (C5_missing_inputs_amended "organized_files" []
    { success := true, new_name := some "x.pdf" } rfl).1 (Or.inl rfl)

/-- C7 counterexample: a content of 50 bare newlines has no form feeds
and no non-blank line, so the claimed formula gives
`⌊lineCount/50⌋ + 1 = 1`, but the code divides the *newline character
count* by 50 and derives a page count of 2. -/
theorem C7_page_count_counterexample :
    countPages (List.replicate 50 '\n') = 2 ∧
    countLines (List.replicate 50 '\n') = 0 ∧
    (List.replicate 50 '\n').count '\x0c' = 0 ∧
    countPages (List.replicate 50 '\n') ≠
      countLines (List.replicate 50 '\n') / 50 + 1 := by
  decide

/-- C7 (amended): the derived page count equals the number of form-feed
characters when that number is positive, and otherwise equals
`⌊newlineCharCount/50⌋ + 1` where `newlineCharCount` counts `'\n'`
characters — not the non-blank `lineCount` stored in the metadata — with
a floor of 1 in all cases. -/
theorem C7_page_count_amended (text : List Char) :
    1 ≤ countPages text ∧
    (0 < text.count '\x0c' → countPages text = text.count '\x0c') ∧
    (text.count '\x0c' = 0 →
      countPages text = text.count '\n' / 50 + 1) := by
  refine ⟨le_max_left _ _, fun h => ?_, fun h => ?_⟩
  · simp only [countPages, if_pos h]
    omega
  · simp only [countPages, h, if_neg (lt_irrefl 0)]
    omega

/-- Witness for C7 (amended) at a concrete content with one form feed. -/
theorem C7_page_count_amended_witness :
    (0 < ("a\x0cb\x0cc".data).count '\x0c' ∧
      countPages "a\x0cb\x0cc".data = ("a\x0cb\x0cc".data).count '\x0c') ∧
    ("\n\n".data.count '\x0c' = 0 ∧
      countPages "\n\n".data = "\n\n".data.count '\n' / 50 + 1) :=
  ⟨⟨by decide, (C7_page_count_amended "a\x0cb\x0cc".data).2.1 (by decide)⟩,
   ⟨by decide, (C7_page_count_amended "\n\n".data).2.2 (by decide)⟩⟩

/-! ### Sanitized-component facts shared by the grouping claims -/

theorem collapseChar_subset (t : Char) :
    ∀ (l : List Char) (c : Char), c ∈ collapseChar t l → c ∈ l
  | [], c => by simp [collapseChar]
  | [x], c => by simp [collapseChar]
  | x :: y :: xs, c => by
    simp only [collapseChar]
    split
    · intro hm
      exact List.mem_cons_of_mem _ (collapseChar_subset t (y :: xs) c hm)
    · intro hm
      rcases List.mem_cons.mp hm with rfl | hm2
      · exact List.mem_cons_self _ _
      · exact List.mem_cons_of_mem _ (collapseChar_subset t (y :: xs) c hm2)

theorem stripWhere_subset (p : Char → Bool) (l : List Char) :
    stripWhere p l ⊆ l := by
  intro c hc
  simp only [stripWhere, List.mem_reverse] at hc
  exact List.dropWhile_subset _ (List.mem_reverse.mp (List.dropWhile_subset _ hc))

/-- Every character of a sanitized grouping component is in `[a-z0-9_]`. -/
theorem mem_cleanPathComponent {c : Char} {x : List Char}
    (h : c ∈ cleanPathComponent x) :
    (isAsciiLower c || isPyDigit c || c = '_') = true := by
  unfold cleanPathComponent at h
  split at h
  · simp at h
  · have h1 := stripWhere_subset _ _ h
    have h2 := collapseChar_subset '_' _ c h1
    exact (List.mem_filter.mp h2).2

theorem classChar_lower {c : Char}
    (h : (isAsciiLower c || isPyDigit c || c = '_') = true) :
    lowerChar c = c := by
  have hno : isAsciiUpper c = false := by
    rw [Bool.eq_false_iff]
    intro hu
    simp only [isAsciiUpper, Bool.and_eq_true, decide_eq_true_eq] at hu
    simp only [isAsciiLower, isPyDigit, Bool.or_eq_true, Bool.and_eq_true,
      decide_eq_true_eq] at h
    have hu1 : ('A').toNat ≤ c.toNat := hu.1
    have hu2 : c.toNat ≤ ('Z').toNat := hu.2
    have e1 : ('A').toNat = 65 := by decide
    have e2 : ('Z').toNat = 90 := by decide
    rcases h with (⟨h1, h2⟩ | ⟨h1, h2⟩) | rfl
    · have f1 : ('a').toNat ≤ c.toNat := h1
      have f2 : ('a').toNat = 97 := by decide
      omega
    · have f1 : c.toNat ≤ ('9').toNat := h2
      have f2 : ('9').toNat = 57 := by decide
      omega
    · have f1 : ('_').toNat = 95 := by decide
      omega
  simp [lowerChar, hno]

theorem map_id_of_mem (f : Char → Char) : ∀ (l : List Char),
    (∀ c ∈ l, f c = c) → l.map f = l
  | [], _ => rfl
  | x :: xs, h => by
    simp only [List.map_cons, h x (List.mem_cons_self _ _)]
    rw [map_id_of_mem f xs (fun c hc => h c (List.mem_cons_of_mem _ hc))]

theorem cleanPathComponent_lower_fixed (x : List Char) :
    lowerStr (cleanPathComponent x) = cleanPathComponent x := by
  unfold lowerStr
  exact map_id_of_mem _ _ (fun c hc => classChar_lower (mem_cleanPathComponent hc))

theorem cleanPathComponent_no_sep {x : List Char} {c : Char}
    (hc : c ∈ cleanPathComponent x) : c ≠ '/' := by
  intro heq
  have hcl := mem_cleanPathComponent hc
  rw [heq] at hcl
  exact absurd hcl (by decide)

theorem splitOnChar_ne_nil (sep : Char) : ∀ (l : List Char),
    splitOnChar sep l ≠ []
  | [] => by simp [splitOnChar]
  | c :: cs => by
    simp only [splitOnChar]
    rcases hs : splitOnChar sep cs with _ | ⟨r, rs⟩
    · simp
    · split
      · simp
      · split <;> simp

theorem splitOnChar_of_no_sep (sep : Char) : ∀ (l : List Char),
    (∀ ch ∈ l, ch ≠ sep) → splitOnChar sep l = [l]
  | [], _ => rfl
  | c :: cs, h => by
    simp only [splitOnChar]
    rw [splitOnChar_of_no_sep sep cs
      (fun ch hch => h ch (List.mem_cons_of_mem _ hch))]
    simp [h c (List.mem_cons_self _ _)]

theorem splitOnChar_append_sep (sep : Char) : ∀ (x t : List Char),
    (∀ ch ∈ x, ch ≠ sep) →
    splitOnChar sep (x ++ sep :: t) = x :: splitOnChar sep t
  | [], t, _ => by
    simp only [List.nil_append, splitOnChar]
    rcases hs : splitOnChar sep t with _ | ⟨r, rs⟩
    · exact absurd hs (splitOnChar_ne_nil sep t)
    · simp [hs]
  | c :: cs, t, h => by
    simp only [List.cons_append, splitOnChar, List.append_eq]
    rw [splitOnChar_append_sep sep cs t
      (fun ch hch => h ch (List.mem_cons_of_mem _ hch))]
    simp [h c (List.mem_cons_self _ _)]

theorem splitOnChar_joinWithChar (sep : Char) : ∀ (ps : List (List Char)),
    ps ≠ [] → (∀ l ∈ ps, ∀ ch ∈ l, ch ≠ sep) →
    splitOnChar sep (joinWithChar sep ps) = ps
  | [], h, _ => absurd rfl h
  | [p], _, hp => by
    simp only [joinWithChar]
    exact splitOnChar_of_no_sep sep p (hp p (List.mem_cons_self _ _))
  | p :: q :: rest, _, hp => by
    simp only [joinWithChar]
    rw [splitOnChar_append_sep sep p (joinWithChar sep (q :: rest))
      (hp p (List.mem_cons_self _ _))]
    rw [splitOnChar_joinWithChar sep (q :: rest) (by simp)
      (fun l hl => hp l (List.mem_cons_of_mem _ hl))]

/-- Every element of `cleanPathComps` is slash-free. -/
theorem cleanPathComps_no_sep (md : Nat) (p cat : List Char) :
    ∀ l ∈ cleanPathComps md p cat, ∀ ch ∈ l, ch ≠ '/' := by
  intro l hl ch hch
  have key : ∀ l', l' ∈ (((splitOnChar '/' p).map cleanPathComponent).filter
      (· ≠ [])).take md → l' ∈ (splitOnChar '/' p).map cleanPathComponent := by
    intro l' hl'
    exact (List.mem_filter.mp (List.mem_of_mem_take hl')).1
  have comp_case : ∀ a, l = cleanPathComponent a → ch ≠ '/' := by
    intro a ha
    subst ha
    exact cleanPathComponent_no_sep hch
  simp only [cleanPathComps] at hl
  split at hl
  · simp at hl
  · rename_i b bs heq
    have hbbs : ∀ l', l' ∈ b :: bs →
        l' ∈ (splitOnChar '/' p).map cleanPathComponent := by
      intro l' hl'
      exact key l' (heq.symm ▸ hl')
    split at hl
    · rcases List.mem_cons.mp hl with rfl | hl2
      · exact comp_case cat rfl
      · obtain ⟨a, -, ha⟩ := List.mem_map.mp (hbbs l hl2)
        exact comp_case a ha.symm
    · obtain ⟨a, -, ha⟩ := List.mem_map.mp (hbbs l hl)
      exact comp_case a ha.symm

theorem cleanPathComps_length (md : Nat) (p cat : List Char) :
    (cleanPathComps md p cat).length ≤ md + 1 := by
  have hb : ((((splitOnChar '/' p).map cleanPathComponent).filter
      (· ≠ [])).take md).length ≤ md := List.length_take_le _ _
  simp only [cleanPathComps]
  split
  · simp
  · rename_i b bs heq
    have hlen : (b :: bs).length ≤ md := heq ▸ hb
    split
    · simp only [List.length_cons] at hlen ⊢
      omega
    · simp only [List.length_cons] at hlen ⊢
      omega

/-- C1 counterexample: with `maxDepth = 2`, category `"Business"` and the
4-level suggestion `"Finance/Reports/Q1/Draft"`, the resolved group path
is `"business/finance/reports"` — three components, exceeding the depth
clamp, because the truncation happens before the category is prepended. -/
theorem C1_depth_clamp_counterexample :
    cleanPath 2 "Finance/Reports/Q1/Draft".data "Business".data =
      "business/finance/reports".data ∧
    ¬ (splitOnChar '/' (cleanPath 2 "Finance/Reports/Q1/Draft".data
        "Business".data)).length ≤ 2 := by
  decide

/-- C1 (amended): the resolved group path has at most `maxDepth + 1`
components (the clamp is applied before the category anchor is
prepended, which can add one more).  With `maxDepth = 2` and suggestion
`"Finance/Reports/Q1/Draft"`: for category `"Finance"` the result has
exactly the 2 components `finance/reports` with the sanitized category
first; for category `"Business"` the sanitized category is prepended —
never appended — as component 0 of 3. -/
theorem C1_depth_clamp_amended :
    (∀ (maxDepth : Nat) (path category : List Char),
      (splitOnChar '/' (cleanPath maxDepth path category)).length
        ≤ maxDepth + 1) ∧
    (splitOnChar '/' (cleanPath 2 "Finance/Reports/Q1/Draft".data
        "Finance".data) = ["finance".data, "reports".data] ∧
      (splitOnChar '/' (cleanPath 2 "Finance/Reports/Q1/Draft".data
        "Finance".data)).head? = some (cleanPathComponent "Finance".data)) ∧
    (splitOnChar '/' (cleanPath 2 "Finance/Reports/Q1/Draft".data
        "Business".data)).head? =
      some (cleanPathComponent "Business".data) := by
  refine ⟨?_, by decide, by decide⟩
  intro md p cat
  have hcomp : ∀ x : List Char,
      (splitOnChar '/' (cleanPathComponent x)).length ≤ md + 1 := by
    intro x
    rw [splitOnChar_of_no_sep '/' (cleanPathComponent x)
      (fun ch hch => cleanPathComponent_no_sep hch)]
    simp
  simp only [cleanPath]
  split
  · exact hcomp cat
  · split
    · exact hcomp cat
    · rename_i hne
      rw [splitOnChar_joinWithChar '/' (cleanPathComps md p cat)
        (by intro hc; rw [hc] at hne; exact hne rfl)
        (cleanPathComps_no_sep md p cat)]
      exact cleanPathComps_length md p cat

/-! ### Whitespace-normalization facts for the idempotence claim -/

theorem normWS_mem_space : ∀ (l : List Char) (c : Char),
    c ∈ normalizeWhitespace l → isPySpace c = true → c = ' '
  | [], c => by simp [normalizeWhitespace]
  | [x], c => by
    simp only [normalizeWhitespace, List.mem_singleton]
    intro hc hw
    by_cases hx : isPySpace x = true
    · simpa [hx] using hc
    · simp only [hx, if_false] at hc
      subst hc
      exact absurd hw (by simp [hx])
  | x :: y :: xs, c => by
    simp only [normalizeWhitespace]
    split
    · exact normWS_mem_space (y :: xs) c
    · intro hc hw
      rcases List.mem_cons.mp hc with rfl | hm
      · by_cases hx : isPySpace x = true
        · simp [hx]
        · simp only [hx, if_false] at hw ⊢
          exact absurd hw (by simp [hx])
      · exact normWS_mem_space (y :: xs) c hm hw

theorem normWS_no_newline (l : List Char) : '\n' ∉ normalizeWhitespace l := by
  intro h
  have := normWS_mem_space l '\n' h (by decide)
  exact absurd this (by decide)

theorem normWS_head_of_not_space (y : Char) (xs : List Char)
    (h : isPySpace y = false) :
    (normalizeWhitespace (y :: xs)).head? = some y := by
  cases xs <;> simp [normalizeWhitespace, h]

theorem normWS_chain : ∀ (l : List Char),
    List.Chain' (fun a b => ¬(isPySpace a = true ∧ isPySpace b = true))
      (normalizeWhitespace l)
  | [] => by simp [normalizeWhitespace]
  | [x] => by simp [normalizeWhitespace]
  | x :: y :: xs => by
    simp only [normalizeWhitespace]
    split
    · exact normWS_chain (y :: xs)
    · rename_i hcond
      rw [List.chain'_cons']
      refine ⟨?_, normWS_chain (y :: xs)⟩
      intro h hh hpair
      by_cases hx : isPySpace x = true
      · have hy : isPySpace y = false := by
          cases hyv : isPySpace y
          · rfl
          · exact absurd (by simp [hx, hyv]) hcond
        rw [normWS_head_of_not_space y xs hy] at hh
        simp only [Option.mem_def, Option.some_inj] at hh
        subst hh
        exact absurd hpair.2 (by simp [hy])
      · simp only [hx, if_false] at hpair
        exact absurd hpair.1 (by simp [hx])

theorem normWS_fixed : ∀ (l : List Char),
    (∀ c ∈ l, isPySpace c = true → c = ' ') →
    List.Chain' (fun a b => ¬(isPySpace a = true ∧ isPySpace b = true)) l →
    normalizeWhitespace l = l
  | [], _, _ => rfl
  | [x], hs, _ => by
    simp only [normalizeWhitespace]
    by_cases hx : isPySpace x = true
    · rw [if_pos hx, hs x (List.mem_singleton_self x) hx]
    · rw [if_neg hx]
  | x :: y :: xs, hs, hch => by
    have hpair := (List.chain'_cons.mp hch).1
    have hcond : (isPySpace x && isPySpace y) = false := by
      cases hx : isPySpace x <;> cases hy : isPySpace y <;> simp_all
    simp only [normalizeWhitespace, hcond, Bool.false_eq_true, if_false]
    have hfst : (if isPySpace x then ' ' else x) = x := by
      by_cases hx : isPySpace x = true
      · rw [if_pos hx, hs x (List.mem_cons_self _ _) hx]
      · rw [if_neg hx]
    rw [hfst, normWS_fixed (y :: xs)
      (fun c hc hw => hs c (List.mem_cons_of_mem _ hc) hw)
      (List.chain'_cons.mp hch).2]

theorem rrn_of_no_newline : ∀ (l : List Char), '\n' ∉ l →
    removeRepeatedNewlines l = l
  | [], _ => rfl
  | [c], _ => rfl
  | [c, d], _ => rfl
  | c :: d :: e :: rest, h => by
    have hc : (c = '\n') = False := by
      simp only [eq_iff_iff, iff_false]
      intro hh
      exact h (hh ▸ List.mem_cons_self _ _)
    simp only [removeRepeatedNewlines, hc, decide_False, Bool.false_and,
      Bool.false_eq_true, if_false]
    rw [rrn_of_no_newline (d :: e :: rest)
      (fun hm => h (List.mem_cons_of_mem _ hm))]

theorem dropWhile_head_not (p : Char → Bool) : ∀ (l : List Char) (c : Char),
    (l.dropWhile p).head? = some c → p c = false
  | [], c => by simp [List.dropWhile]
  | x :: xs, c => by
    simp only [List.dropWhile]
    split
    · exact dropWhile_head_not p xs c
    · rename_i hx
      intro h
      simp only [List.head?_cons, Option.some_inj] at h
      subst h
      exact Bool.not_eq_true _ ▸ hx

theorem stripWhere_prefix_dropWhile (p : Char → Bool) (l : List Char) :
    stripWhere p l <+: l.dropWhile p := by
  unfold stripWhere
  have h2 : (l.dropWhile p).reverse.dropWhile p <:+ (l.dropWhile p).reverse :=
    List.dropWhile_suffix p
  have h3 := List.reverse_prefix.mpr h2
  rwa [List.reverse_reverse] at h3

theorem stripWhere_within (p : Char → Bool) (l : List Char) :
    stripWhere p l <:+: l := by
  obtain ⟨t, ht⟩ := stripWhere_prefix_dropWhile p l
  obtain ⟨u, hu⟩ := List.dropWhile_suffix p (l := l)
  exact ⟨u, t, by rw [List.append_assoc, ht, hu]⟩

theorem chain_of_within {R : Char → Char → Prop} {l m : List Char}
    (h : List.Chain' R m) (hw : l <:+: m) : List.Chain' R l := by
  rcases hw with ⟨u, t, rfl⟩
  rw [List.append_assoc] at h
  exact h.right_of_append.left_of_append

theorem stripWhere_eq_self (p : Char → Bool) (l : List Char)
    (hhead : ∀ c, l.head? = some c → p c = false)
    (hlast : ∀ c, l.getLast? = some c → p c = false) :
    stripWhere p l = l := by
  have h1 : l.dropWhile p = l := by
    cases l with
    | nil => rfl
    | cons x xs => simp [List.dropWhile, hhead x rfl]
  have h2 : l.reverse.dropWhile p = l.reverse := by
    cases hr : l.reverse with
    | nil => simp
    | cons x xs =>
      have hx : l.getLast? = some x := by
        rw [← List.head?_reverse, hr, List.head?_cons]
      rw [List.dropWhile]
      simp [hlast x hx]
  unfold stripWhere
  rw [h1, h2, List.reverse_reverse]

theorem stripWhere_idem (p : Char → Bool) (l : List Char) :
    stripWhere p (stripWhere p l) = stripWhere p l := by
  apply stripWhere_eq_self
  · intro c hc
    obtain ⟨t, ht⟩ := stripWhere_prefix_dropWhile p l
    have hcA : (l.dropWhile p).head? = some c := by
      rw [← ht]
      cases hs : stripWhere p l with
      | nil => rw [hs] at hc; simp at hc
      | cons z zs =>
        rw [hs] at hc
        simp only [List.head?_cons, Option.some_inj] at hc
        subst hc
        simp
    exact dropWhile_head_not p l c hcA
  · intro c hc
    unfold stripWhere at hc
    rw [List.getLast?_reverse] at hc
    exact dropWhile_head_not p _ c hc

/-- C2 counterexample: the full cleaning pass is not idempotent.  For
`"Page\nHELLO\n5 x"` one pass removes the `HELLO` header line and
collapses whitespace, producing `"Page 5 x"` — in which a second pass
now finds a `Page 5` marker and then a short remnant line, leaving the
empty string. -/
theorem C2_normalizer_idempotent_counterexample :
    cleanText "Page\nHELLO\n5 x".data = "Page 5 x".data ∧
    cleanText (cleanText "Page\nHELLO\n5 x".data) = [] ∧
    cleanText (cleanText "Page\nHELLO\n5 x".data) ≠
      cleanText "Page\nHELLO\n5 x".data := by
  refine ⟨by decide, by decide, by decide⟩

/-- C2 (amended): the whitespace-normalization suffix of the pass —
whitespace collapse, repeated-newline collapse, trim — is idempotent;
the full pass is not, because the pattern-removal steps (page numbers,
headers/footers) can expose new matches for a second pass. -/
theorem C2_normalizer_idempotent_amended (s : List Char) :
    pyStrip (removeRepeatedNewlines (normalizeWhitespace
      (pyStrip (removeRepeatedNewlines (normalizeWhitespace s))))) =
    pyStrip (removeRepeatedNewlines (normalizeWhitespace s)) := by
  have hR1 : removeRepeatedNewlines (normalizeWhitespace s) =
      normalizeWhitespace s := rrn_of_no_newline _ (normWS_no_newline s)
  rw [hR1]
  have hsub : ∀ c ∈ pyStrip (normalizeWhitespace s),
      c ∈ normalizeWhitespace s := fun c hc => stripWhere_subset _ _ hc
  have hW : normalizeWhitespace (pyStrip (normalizeWhitespace s)) =
      pyStrip (normalizeWhitespace s) :=
    normWS_fixed _ (fun c hc hw => normWS_mem_space s c (hsub c hc) hw)
      (chain_of_within (normWS_chain s) (stripWhere_within _ _))
  rw [hW]
  have hR2 : removeRepeatedNewlines (pyStrip (normalizeWhitespace s)) =
      pyStrip (normalizeWhitespace s) :=
    rrn_of_no_newline _ (fun hm => normWS_no_newline s (hsub _ hm))
  rw [hR2]
  exact stripWhere_idem _ _

/-! ### Anchoring of the group path on the default category -/

theorem joinWithChar_cons_ne_nil (sep : Char) (c : Char) (x : List Char)
    (tail : List (List Char)) :
    joinWithChar sep ((c :: x) :: tail) ≠ [] := by
  cases tail <;> simp [joinWithChar]

/-- Whatever the raw LLM suggestion, `_clean_path` with category
`"other"` yields a path whose first component is `other`. -/
theorem cleanPath_other_anchor (md : Nat) (raw : List Char) :
    ∃ rest, cleanPath md raw "other".data =
      joinWithChar '/' ("other".data :: rest) := by
  have hother : cleanPathComponent "other".data = "other".data := by decide
  by_cases hp : raw = []
  · exact ⟨[], by simp [cleanPath, hp, hother, joinWithChar]⟩
  · simp only [cleanPath, if_neg hp]
    rcases hb : (((splitOnChar '/' raw).map cleanPathComponent).filter
        (· ≠ [])).take md with _ | ⟨b, bs⟩
    · have hcomps : cleanPathComps md raw "other".data = [] := by
        simp only [cleanPathComps]
        rw [hb]
      exact ⟨[], by simp [hcomps, joinWithChar, hother]⟩
    · have hmem : b ∈ (splitOnChar '/' raw).map cleanPathComponent := by
        have hbt : b ∈ (((splitOnChar '/' raw).map cleanPathComponent).filter
            (· ≠ [])).take md := by
          rw [hb]; exact List.mem_cons_self _ _
        exact (List.mem_filter.mp (List.mem_of_mem_take hbt)).1
      obtain ⟨a, -, hba⟩ := List.mem_map.mp hmem
      by_cases hbe : lowerStr b ≠ lowerStr "other".data
      · have hcomps : cleanPathComps md raw "other".data =
            "other".data :: b :: bs := by
          simp only [cleanPathComps]
          rw [hb]
          show (if lowerStr b ≠ lowerStr "other".data then
              cleanPathComponent "other".data :: b :: bs else b :: bs) =
            "other".data :: b :: bs
          rw [if_pos hbe, hother]
        refine ⟨b :: bs, ?_⟩
        rw [hcomps, if_neg (joinWithChar_cons_ne_nil '/' 'o' "ther".data _)]
      · push_neg at hbe
        have hbl : lowerStr b = b := by
          rw [← hba]; exact cleanPathComponent_lower_fixed a
        have hbo : b = "other".data := by
          rw [← hbl, hbe]; decide
        have hcomps : cleanPathComps md raw "other".data = b :: bs := by
          simp only [cleanPathComps]
          rw [hb]
          show (if lowerStr b ≠ lowerStr "other".data then
              cleanPathComponent "other".data :: b :: bs else b :: bs) =
            b :: bs
          rw [if_neg (by simp [hbe])]
        refine ⟨bs, ?_⟩
        rw [hcomps, hbo,
          if_neg (joinWithChar_cons_ne_nil '/' 'o' "ther".data _)]

/-- C10: the classify stage stores its result in the top-level
`category`/`confidence` keys and never writes the `classification`
sub-dict, while the grouping stage reads the category from
`classification` with default `'other'`; hence for every record entering
classification with `success = true` and no `classification` key, the
composed classify-then-group pipeline always anchors the group path on
`other`, whatever the classifier returned. -/
theorem C10_classification_key_mismatch (r : Record) (co : ClassifyOutcome)
    (maxDepth : Nat) (go : Except Unit String)
    (h : r.success = true) (hcls : r.classification = none) :
    (classifyStage co r).classification = none ∧
    (classifyStage co r).success = true ∧
    (classifyStage co r).category ≠ none ∧
    ∃ rest, (groupStage maxDepth go (classifyStage co r)).group_path =
      some (String.mk (joinWithChar '/' ("other".data :: rest))) := by
  have h1c : (classifyStage co r).classification = none := by
    cases co <;> simp [classifyStage, h, hcls]
  have h1s : (classifyStage co r).success = true := by
    cases co <;> simp [classifyStage, h]
  have h1cat : (classifyStage co r).category ≠ none := by
    cases co <;> simp [classifyStage, h]
  refine ⟨h1c, h1s, h1cat, ?_⟩
  have hlow : lowerStr "other".data = "other".data := by decide
  cases go with
  | ok raw =>
    obtain ⟨rest, hrest⟩ := cleanPath_other_anchor maxDepth (pyStrip raw.data)
    exact ⟨rest, by simp [groupStage, h1s, h1c, hlow, hrest]⟩
  | error e =>
    refine ⟨[], ?_⟩
    have hother : cleanPathComponent "other".data = "other".data := by decide
    simp [groupStage, h1s, h1c, hother, joinWithChar]

/-- Witness for C10 at a concrete successful record and a classifier
that returned a valid-looking category. -/
theorem C10_classification_key_mismatch_witness :
    ({ success := true, content := some "t" } : Record).success = true ∧
    ({ success := true, content := some "t" } : Record).classification
      = none ∧
    ∃ rest, (groupStage 3 (.ok "Business/Finance")
        (classifyStage (.dictResult (some "Business") (some (9/10)))
          { success := true, content := some "t" })).group_path =
      some (String.mk (joinWithChar '/' ("other".data :: rest))) :=
  ⟨rfl, rfl,
    (C10_classification_key_mismatch { success := true, content := some "t" }
      (.dictResult (some "Business") (some (9/10))) 3 (.ok "Business/Finance")
      rfl rfl).2.2.2⟩

/-- C6: collision resolution.  A non-existing path is returned
unchanged; an existing one gets the ` (k)` suffix for the smallest
`k ≥ 1` whose candidate does not exist; the returned path never points
to an existing location.  Concretely, a second resolution of the same
inputs yields `r (1).pdf` and a third yields `r (2).pdf`. -/
theorem C6_collision_resolution :
    (∀ (fs : List String) (p : PyPath),
      (pathToStr p ∉ fs → handleCollision fs p = p) ∧
      (pathToStr p ∈ fs → ∃ k, handleCollision fs p = collisionCand p k ∧
        1 ≤ k ∧ pathToStr (collisionCand p k) ∉ fs ∧
        ∀ j, 1 ≤ j → j < k → pathToStr (collisionCand p j) ∈ fs) ∧
      pathToStr (handleCollision fs p) ∉ fs) ∧
    handleCollision ["organized_files/docs/r.pdf"]
        ⟨["organized_files", "docs"], "r.pdf"⟩ =
      ⟨["organized_files", "docs"], "r (1).pdf"⟩ ∧
    handleCollision
        ["organized_files/docs/r.pdf", "organized_files/docs/r (1).pdf"]
        ⟨["organized_files", "docs"], "r.pdf"⟩ =
      ⟨["organized_files", "docs"], "r (2).pdf"⟩ := by
  refine ⟨fun fs p => ?_, ?_, ?_⟩
  · by_cases hmem : pathToStr p ∉ fs
    · refine ⟨fun _ => ?_, fun hin => absurd hin hmem, ?_⟩
      · rw [handleCollision, if_pos hmem]
      · rw [handleCollision, if_pos hmem]
        exact hmem
    · have hmem2 : pathToStr p ∈ fs := not_not.mp hmem
      have hfind := Nat.find_spec (collisionCand_free fs p)
      refine ⟨fun hin => absurd hmem2 hin, fun _ => ?_, ?_⟩
      · refine ⟨Nat.find (collisionCand_free fs p) + 1, ?_, by omega, hfind, ?_⟩
        · rw [handleCollision, if_neg hmem]
        · intro j hj1 hjk
          have hmin := Nat.find_min (collisionCand_free fs p)
            (m := j - 1) (by omega)
          rw [not_not, Nat.sub_add_cancel hj1] at hmin
          exact hmin
      · rw [handleCollision, if_neg hmem]
        exact hfind
  · have hfind : Nat.find (collisionCand_free
        ["organized_files/docs/r.pdf"]
        ⟨["organized_files", "docs"], "r.pdf"⟩) = 0 :=
      (Nat.find_eq_zero _).mpr (by decide)
    rw [handleCollision, if_neg (by decide), hfind]
    decide
  · have hfind : Nat.find (collisionCand_free
        ["organized_files/docs/r.pdf", "organized_files/docs/r (1).pdf"]
        ⟨["organized_files", "docs"], "r.pdf"⟩) = 1 :=
      (Nat.find_eq_iff _).mpr (by
        refine ⟨by decide, fun n hn => ?_⟩
        have hn0 : n = 0 := by omega
        subst hn0
        decide)
    rw [handleCollision, if_neg (by decide), hfind]
    decide

/-- Witness for C6: both the no-collision and collision branches of the
general statement at concrete filesystems. -/
theorem C6_collision_resolution_witness :
    (pathToStr ⟨["organized_files"], "a.pdf"⟩ ∉ ["organized_files/b.pdf"] ∧
      handleCollision ["organized_files/b.pdf"]
        ⟨["organized_files"], "a.pdf"⟩ = ⟨["organized_files"], "a.pdf"⟩) ∧
    (pathToStr ⟨["organized_files"], "b.pdf"⟩ ∈ ["organized_files/b.pdf"] ∧
      pathToStr (handleCollision ["organized_files/b.pdf"]
        ⟨["organized_files"], "b.pdf"⟩) ∉ ["organized_files/b.pdf"]) :=
  ⟨⟨by decide, (C6_collision_resolution.1 ["organized_files/b.pdf"]
      ⟨["organized_files"], "a.pdf"⟩).1 (by decide)⟩,
   ⟨by decide, (C6_collision_resolution.1 ["organized_files/b.pdf"]
      ⟨["organized_files"], "b.pdf"⟩).2.2⟩⟩

/-! ### Filename-assembly facts -/

theorem classSChar_lower {c : Char}
    (h : (isAsciiLower c || isPyDigit c || isTrimChar c) = true) :
    lowerChar c = c := by
  have hno : isAsciiUpper c = false := by
    rw [Bool.eq_false_iff]
    intro hu
    simp only [isAsciiUpper, Bool.and_eq_true, decide_eq_true_eq] at hu
    simp only [isAsciiLower, isPyDigit, isTrimChar, Bool.or_eq_true,
      Bool.and_eq_true, decide_eq_true_eq] at h
    have hu1 : ('A').toNat ≤ c.toNat := hu.1
    have hu2 : c.toNat ≤ ('Z').toNat := hu.2
    have e1 : ('A').toNat = 65 := by decide
    have e2 : ('Z').toNat = 90 := by decide
    rcases h with (⟨h1, h2⟩ | ⟨h1, h2⟩) | ((rfl | rfl) | rfl)
    · have f1 : ('a').toNat ≤ c.toNat := h1
      have f2 : ('a').toNat = 97 := by decide
      omega
    · have f1 : c.toNat ≤ ('9').toNat := h2
      have f2 : ('9').toNat = 57 := by decide
      omega
    · have f1 : ('_').toNat = 95 := by decide
      omega
    · have f1 : ('.').toNat = 46 := by decide
      omega
    · have f1 : ('-').toNat = 45 := by decide
      omega
  simp [lowerChar, hno]

theorem rstripWhere_length_le (p : Char → Bool) (l : List Char) :
    (rstripWhere p l).length ≤ l.length := by
  unfold rstripWhere
  simp only [List.length_reverse]
  exact (length_dropWhile_le _ _).trans (by simp)

theorem rstripWhere_subset (p : Char → Bool) (l : List Char) :
    rstripWhere p l ⊆ l := by
  intro c hc
  simp only [rstripWhere, List.mem_reverse] at hc
  exact List.mem_reverse.mp (List.dropWhile_subset _ hc)

theorem pySliceTo_subset (m : Int) (l : List Char) : pySliceTo m l ⊆ l := by
  unfold pySliceTo
  split <;> exact List.take_subset _ _

theorem pySliceTo_length_le (m : Int) (l : List Char) (hm : 0 ≤ m) :
    (pySliceTo m l).length ≤ m.toNat := by
  unfold pySliceTo
  rw [if_pos hm]
  exact List.length_take_le _ _

theorem sanitize_core_mem (l : List Char) :
    ∀ c ∈ stripWhere isTrimChar (collapseChar '_' (l.map (fun c =>
      if isAsciiLower c || isPyDigit c || isTrimChar c then c else '_'))),
    (isAsciiLower c || isPyDigit c || isTrimChar c) = true := by
  intro c hc
  have h1 := stripWhere_subset _ _ hc
  have h2 := collapseChar_subset '_' _ c h1
  obtain ⟨a, -, ha⟩ := List.mem_map.mp h2
  by_cases hcl : (isAsciiLower a || isPyDigit a || isTrimChar a) = true
  · rw [if_pos hcl] at ha
    subst ha
    exact hcl
  · rw [if_neg hcl] at ha
    subst ha
    decide

/-- The truncate-then-append tail of `_clean_filename` always yields a
name ending in the (lowercase) extension within the 50-character
budget. -/
theorem tailPipeline_ok (n0 n1 n2 n3 : List Char) (ext : String)
    (hmem : ∀ c ∈ n0, (isAsciiLower c || isPyDigit c || isTrimChar c) = true)
    (hlow : lowerStr ext.data = ext.data) (hlen : ext.length ≤ 34)
    (h1 : n1 = if n0 = [] then "unnamed_document".data else n0)
    (h2 : n2 = if (n1.length : Int) > (50 : Int) - ext.length then
        rstripWhere (· = '_') (pySliceTo ((50 : Int) - ext.length) n1)
      else n1)
    (h3 : n3 = if !(lowerStr ext.data).isSuffixOf (lowerStr n2) then
        n2 ++ ext.data else n2) :
    ext.data.isSuffixOf n3 = true ∧ n3.length ≤ 50 := by
  have hed : ext.data.length = ext.length := rfl
  have hmem1 : ∀ c ∈ n1,
      (isAsciiLower c || isPyDigit c || isTrimChar c) = true := by
    rw [h1]
    split
    · decide
    · exact hmem
  have hmem2 : ∀ c ∈ n2,
      (isAsciiLower c || isPyDigit c || isTrimChar c) = true := by
    rw [h2]
    split
    · intro c hc
      exact hmem1 c (pySliceTo_subset _ _ (rstripWhere_subset _ _ hc))
    · exact hmem1
  have hlow2 : lowerStr n2 = n2 :=
    map_id_of_mem _ _ (fun c hc => classSChar_lower (hmem2 c hc))
  have hlen2 : n2.length ≤ 50 - ext.length := by
    rw [h2]
    split
    · rename_i hgt
      have hnn : (0 : Int) ≤ (50 : Int) - ext.length := by omega
      have hb1 := rstripWhere_length_le (· = '_')
        (pySliceTo ((50 : Int) - ext.length) n1)
      have hb2 := pySliceTo_length_le ((50 : Int) - ext.length) n1 hnn
      omega
    · rename_i hng
      push_neg at hng
      omega
  rw [h3, hlow, hlow2]
  by_cases hsuf : ext.data.isSuffixOf n2 = true
  · rw [hsuf]
    simp only [Bool.not_true, Bool.false_eq_true, if_false]
    exact ⟨hsuf, by omega⟩
  · rw [Bool.eq_false_iff.mpr hsuf]
    simp only [Bool.not_false, if_true]
    refine ⟨List.isSuffixOf_iff_suffix.mpr (List.suffix_append _ _), ?_⟩
    rw [List.length_append]
    omega

/-- C8 counterexample: in `build_path`, the known-extension list omits
`.doc` (and `.ppt`), so for a `.doc` original whose sanitized name
already ends in `.doc` the extension is appended *again*: the final
filename ends in `.doc.doc` — the extension is not appended "only if the
name lacks it". -/
theorem C8_filename_suffix_counterexample :
    ".doc" ∈ supportedExts ∧
    (".doc".data.isSuffixOf (lowerStr "summary.doc".data)) = true ∧
    (buildPath "organized_files" []
      { success := true, group_path := some "reports",
        new_name := some "summary.doc",
        file_path := some "input_files/orig.doc" }).final_path =
      some "organized_files/reports/summary.doc.doc" := by
  refine ⟨by decide, by decide, by decide⟩

/-- C8 (amended): the renaming agent's `_clean_filename` satisfies the
property — for every suggestion and every supported original extension,
the assembled name ends with the (lowercase) extension and stays within
the default 50-character budget, with the extension appended only when
the sanitized name lacks it.  The path builder, however, checks against
its own hard-coded list `{.pdf,.docx,.pptx,.jpg,.jpeg,.png}` instead of
the original extension, so `.doc`/`.ppt` names get the extension
re-appended (see the counterexample). -/
theorem C8_filename_assembly_amended (suggested ext : String)
    (h : ext ∈ supportedExts) :
    ext.data.isSuffixOf (cleanFilename 50 suggested ext).data = true ∧
    (cleanFilename 50 suggested ext).length ≤ 50 := by
  have hlow : lowerStr ext.data = ext.data := by
    fin_cases h <;> decide
  have hlen : ext.length ≤ 34 := by
    fin_cases h <;> decide
  by_cases hf : suggested = ""
  · rw [cleanFilename, if_pos hf]
    constructor
    · rw [List.isSuffixOf_iff_suffix]
      exact List.suffix_append _ _
    · show ("unnamed_document".data ++ ext.data).length ≤ 50
      rw [List.length_append]
      have hed : ext.data.length = ext.length := rfl
      have h16 : "unnamed_document".data.length = 16 := by decide
      omega
  · rw [cleanFilename, if_neg hf]
    exact tailPipeline_ok
      (stripWhere isTrimChar (collapseChar '_'
        ((lowerStr (pathStem suggested.data)).map (fun c =>
          if isAsciiLower c || isPyDigit c || isTrimChar c then c else '_'))))
      _ _ _ ext (sanitize_core_mem _) hlow hlen rfl rfl rfl

/-- Witness for C8 (amended) at a concrete over-long suggestion. -/
theorem C8_filename_assembly_amended_witness :
    ".pdf" ∈ supportedExts ∧
    (".pdf".data.isSuffixOf (cleanFilename 50
      "A Very Long Quarterly Financial Report Draft For Review 2023"
      ".pdf").data = true ∧
    (cleanFilename 50
      "A Very Long Quarterly Financial Report Draft For Review 2023"
      ".pdf").length ≤ 50) :=
  ⟨by decide, C8_filename_assembly_amended
    "A Very Long Quarterly Financial Report Draft For Review 2023" ".pdf"
    (by decide)⟩

end FileOrganizer
